import Mathlib

/-!
Verification of the provider-resolution and invocation layer of nanobot-rs.

The definitions below are a shallow embedding of `src/providers/litellm.rs`
and `src/agent/turn_guard.rs`.  Strings are modelled as lists of characters
(`Str`); Rust's `str::contains`, `str::starts_with`, `str::rsplit('/').next()`,
`str::to_lowercase`, `str::trim` and `str::replace` are modelled by the
corresponding list operations (lowercasing is ASCII, which covers all catalog
data).  The external `litellm_rs::completion` network call and the external
`serde_json` parser are modelled as oracle parameters (`call`, `parse`):
the repository's own control flow around them is embedded faithfully.
Process environment state is modelled as a partial map `Str → Option Str`.
Temperatures (f32 in the source) are modelled as rationals: the source never
computes with them, it only stores and replaces them.
-/

namespace Nanobot

/-- Strings as character lists. -/
abbrev Str := List Char

/-- Conversion from Lean string literals. -/
def chars (s : String) : Str := s.toList

/-- Models Rust `str::to_lowercase` (ASCII; all catalog data is ASCII). -/
def toLowerS (s : Str) : Str := s.map Char.toLower

/-- Models Rust `str::contains` with a string pattern: contiguous substring test. -/
def isInfixOfS (needle : Str) (hay : Str) : Bool :=
  match hay with
  | [] => needle.isEmpty
  | _ :: t => needle.isPrefixOf hay || isInfixOfS needle t

/-- Models Rust `model.rsplit('/').next().unwrap_or(model)`: the segment of
the string after its last `'/'` (the whole string when it has no slash). -/
def afterLastSlash (s : Str) : Str :=
  (s.reverse.takeWhile (fun c => c ≠ '/')).reverse

/-- Models Rust `str::trim` (whitespace at both ends removed). -/
def trimS (s : Str) : Str :=
  ((s.dropWhile Char.isWhitespace).reverse.dropWhile Char.isWhitespace).reverse

/-- Fuel-driven worker for `replaceS`; the fuel (initially the string's
length) only makes the recursion structural and is never exhausted before
the string is, because each step consumes at least one character. -/
def replaceFuel (pat rep : Str) : Nat → Str → Str
  | 0, s => s
  | _ + 1, [] => []
  | fuel + 1, c :: rest =>
    if pat.isPrefixOf (c :: rest) then
      rep ++ replaceFuel pat rep fuel ((c :: rest).drop pat.length)
    else
      c :: replaceFuel pat rep fuel rest

/-- Models Rust `str::replace` for non-empty patterns (all patterns used by
the source, `{api_key}` and `{api_base}`, are non-empty): replaces each
leftmost non-overlapping occurrence of `pat` by `rep`. -/
def replaceS (s pat rep : Str) : Str :=
  if pat = [] then s else replaceFuel pat rep s.length s

/-- JSON values, as produced by the `serde_json` parse oracle. -/
inductive Json where
  | null : Json
  | bool (b : Bool) : Json
  | num (q : ℚ) : Json
  | str (s : Str) : Json
  | arr (xs : List Json) : Json
  | obj (fields : List (Str × Json)) : Json

/-- `serde_json::Value::as_object`. -/
def Json.asObject : Json → Option (List (Str × Json))
  | .obj fields => some fields
  | _ => none

/-- `serde_json::Value::is_object`. -/
def Json.isObj : Json → Bool
  | .obj _ => true
  | _ => false

/-- `serde_json::Value::get` on an object followed by key lookup. -/
def jsonLookup (v : Json) (key : Str) : Option Json :=
  match v with
  | .obj fields => (fields.find? (fun p => p.1 == key)).map (·.2)
  | _ => none

/-- `ModelOverride` from `litellm.rs` (src lines 10-14). -/
structure ModelOverride where
  pattern : Str
  temperature : Option ℚ
deriving DecidableEq

/-- `EnvExtra` from `litellm.rs` (src lines 16-20). -/
structure EnvExtra where
  key : Str
  value_template : Str
deriving DecidableEq

/-- `ProviderSpec` from `litellm.rs` (src lines 22-37).  Field names ending in
`prefix` are shortened to `pref` (`litellm_pref` is `litellm_prefix`,
`skip_prefs` is `skip_prefixes`, `detect_by_key_pref` is
`detect_by_key_prefix`, `strip_model_pref` is `strip_model_prefix`). -/
structure ProviderSpec where
  name : Str
  keywords : List Str
  env_key : Str
  litellm_pref : Str
  skip_prefs : List Str
  is_gateway : Bool
  is_local : Bool
  detect_by_key_pref : Str
  detect_by_base_keyword : Str
  default_api_base : Str
  strip_model_pref : Bool
  env_extras : List EnvExtra
  model_overrides : List ModelOverride
deriving DecidableEq

/-- The `openrouter` catalog entry. -/
def openrouterSpec : ProviderSpec :=
  { name := chars "openrouter"
    keywords := [chars "openrouter"]
    env_key := chars "OPENROUTER_API_KEY"
    litellm_pref := chars "openrouter"
    skip_prefs := []
    is_gateway := true
    is_local := false
    detect_by_key_pref := chars "sk-or-"
    detect_by_base_keyword := chars "openrouter"
    default_api_base := chars "https://openrouter.ai/api/v1"
    strip_model_pref := false
    env_extras := []
    model_overrides := [] }

/-- The `aihubmix` catalog entry. -/
def aihubmixSpec : ProviderSpec :=
  { name := chars "aihubmix"
    keywords := [chars "aihubmix"]
    env_key := chars "OPENAI_API_KEY"
    litellm_pref := chars "openai"
    skip_prefs := []
    is_gateway := true
    is_local := false
    detect_by_key_pref := chars ""
    detect_by_base_keyword := chars "aihubmix"
    default_api_base := chars "https://aihubmix.com/v1"
    strip_model_pref := true
    env_extras := []
    model_overrides := [] }

/-- The `anthropic` catalog entry. -/
def anthropicSpec : ProviderSpec :=
  { name := chars "anthropic"
    keywords := [chars "anthropic", chars "claude"]
    env_key := chars "ANTHROPIC_API_KEY"
    litellm_pref := chars ""
    skip_prefs := []
    is_gateway := false
    is_local := false
    detect_by_key_pref := chars ""
    detect_by_base_keyword := chars ""
    default_api_base := chars ""
    strip_model_pref := false
    env_extras := []
    model_overrides := [] }

/-- The `openai` catalog entry. -/
def openaiSpec : ProviderSpec :=
  { name := chars "openai"
    keywords := [chars "openai", chars "gpt"]
    env_key := chars "OPENAI_API_KEY"
    litellm_pref := chars ""
    skip_prefs := []
    is_gateway := false
    is_local := false
    detect_by_key_pref := chars ""
    detect_by_base_keyword := chars ""
    default_api_base := chars ""
    strip_model_pref := false
    env_extras := []
    model_overrides := [] }

/-- The `deepseek` catalog entry. -/
def deepseekSpec : ProviderSpec :=
  { name := chars "deepseek"
    keywords := [chars "deepseek"]
    env_key := chars "DEEPSEEK_API_KEY"
    litellm_pref := chars "deepseek"
    skip_prefs := [chars "deepseek/"]
    is_gateway := false
    is_local := false
    detect_by_key_pref := chars ""
    detect_by_base_keyword := chars ""
    default_api_base := chars ""
    strip_model_pref := false
    env_extras := []
    model_overrides := [] }

/-- The `gemini` catalog entry. -/
def geminiSpec : ProviderSpec :=
  { name := chars "gemini"
    keywords := [chars "gemini"]
    env_key := chars "GEMINI_API_KEY"
    litellm_pref := chars "gemini"
    skip_prefs := [chars "gemini/"]
    is_gateway := false
    is_local := false
    detect_by_key_pref := chars ""
    detect_by_base_keyword := chars ""
    default_api_base := chars ""
    strip_model_pref := false
    env_extras := []
    model_overrides := [] }

/-- The `zhipu` catalog entry. -/
def zhipuSpec : ProviderSpec :=
  { name := chars "zhipu"
    keywords := [chars "zhipu", chars "glm", chars "zai"]
    env_key := chars "ZAI_API_KEY"
    litellm_pref := chars "zai"
    skip_prefs := [chars "zhipu/", chars "zai/", chars "openrouter/", chars "hosted_vllm/"]
    is_gateway := false
    is_local := false
    detect_by_key_pref := chars ""
    detect_by_base_keyword := chars ""
    default_api_base := chars ""
    strip_model_pref := false
    env_extras := [{ key := chars "ZHIPUAI_API_KEY", value_template := chars "{api_key}" }]
    model_overrides := [] }

/-- The `dashscope` catalog entry. -/
def dashscopeSpec : ProviderSpec :=
  { name := chars "dashscope"
    keywords := [chars "qwen", chars "dashscope"]
    env_key := chars "DASHSCOPE_API_KEY"
    litellm_pref := chars "dashscope"
    skip_prefs := [chars "dashscope/", chars "openrouter/"]
    is_gateway := false
    is_local := false
    detect_by_key_pref := chars ""
    detect_by_base_keyword := chars ""
    default_api_base := chars ""
    strip_model_pref := false
    env_extras := []
    model_overrides := [] }

/-- The `moonshot` catalog entry. -/
def moonshotSpec : ProviderSpec :=
  { name := chars "moonshot"
    keywords := [chars "moonshot", chars "kimi"]
    env_key := chars "MOONSHOT_API_KEY"
    litellm_pref := chars "moonshot"
    skip_prefs := [chars "moonshot/", chars "openrouter/"]
    is_gateway := false
    is_local := false
    detect_by_key_pref := chars ""
    detect_by_base_keyword := chars ""
    default_api_base := chars "https://api.moonshot.ai/v1"
    strip_model_pref := false
    env_extras := [{ key := chars "MOONSHOT_API_BASE", value_template := chars "{api_base}" }]
    model_overrides := [{ pattern := chars "kimi-k2.5", temperature := some 1 }] }

/-- The `minimax` catalog entry. -/
def minimaxSpec : ProviderSpec :=
  { name := chars "minimax"
    keywords := [chars "minimax"]
    env_key := chars "MINIMAX_API_KEY"
    litellm_pref := chars "minimax"
    skip_prefs := [chars "minimax/", chars "openrouter/"]
    is_gateway := false
    is_local := false
    detect_by_key_pref := chars ""
    detect_by_base_keyword := chars ""
    default_api_base := chars "https://api.minimax.io/v1"
    strip_model_pref := false
    env_extras := []
    model_overrides := [] }

/-- The `vllm` catalog entry. -/
def vllmSpec : ProviderSpec :=
  { name := chars "vllm"
    keywords := [chars "vllm"]
    env_key := chars "HOSTED_VLLM_API_KEY"
    litellm_pref := chars "hosted_vllm"
    skip_prefs := []
    is_gateway := false
    is_local := true
    detect_by_key_pref := chars ""
    detect_by_base_keyword := chars ""
    default_api_base := chars ""
    strip_model_pref := false
    env_extras := []
    model_overrides := [] }

/-- The `groq` catalog entry. -/
def groqSpec : ProviderSpec :=
  { name := chars "groq"
    keywords := [chars "groq"]
    env_key := chars "GROQ_API_KEY"
    litellm_pref := chars "groq"
    skip_prefs := [chars "groq/"]
    is_gateway := false
    is_local := false
    detect_by_key_pref := chars ""
    detect_by_base_keyword := chars ""
    default_api_base := chars ""
    strip_model_pref := false
    env_extras := []
    model_overrides := [] }

/-- The `PROVIDERS` catalog (src lines 39-229), in source order. -/
def PROVIDERS : List ProviderSpec :=
  [openrouterSpec, aihubmixSpec, anthropicSpec, openaiSpec, deepseekSpec,
   geminiSpec, zhipuSpec, dashscopeSpec, moonshotSpec, minimaxSpec,
   vllmSpec, groqSpec]

/-- `find_by_name` (src lines 231-233). -/
def find_by_name (name : Str) : Option ProviderSpec :=
  PROVIDERS.find? (fun spec => spec.name == name)

/-- The per-spec match test inside `find_by_model`: a non-gateway, non-local
spec one of whose keywords occurs in the lowercased model id. -/
def vendorMatches (model : Str) (spec : ProviderSpec) : Bool :=
  !spec.is_gateway && !spec.is_local &&
    spec.keywords.any (fun kw => isInfixOfS kw (toLowerS model))

/-- `find_by_model` (src lines 235-242). -/
def find_by_model (model : Str) : Option ProviderSpec :=
  PROVIDERS.find? (vendorMatches model)

/-- The auto-detection predicate of `find_gateway`'s catalog scan
(src lines 256-262). -/
def detectMatches (api_key api_base : Option Str) (spec : ProviderSpec) : Bool :=
  (!spec.detect_by_key_pref.isEmpty &&
     (match api_key with
      | some k => spec.detect_by_key_pref.isPrefixOf k
      | none => false))
  || (!spec.detect_by_base_keyword.isEmpty &&
     (match api_base with
      | some b => isInfixOfS spec.detect_by_base_keyword b
      | none => false))

/-- `find_gateway` (src lines 244-263). -/
def find_gateway (provider_name api_key api_base : Option Str) :
    Option ProviderSpec :=
  match provider_name.bind find_by_name with
  | some spec =>
    if spec.is_gateway || spec.is_local then some spec
    else PROVIDERS.find? (detectMatches api_key api_base)
  | none => PROVIDERS.find? (detectMatches api_key api_base)

/-- `LiteLLMProvider::resolve_model` (src lines 309-335), with the selected
gateway passed explicitly. -/
def resolve_model (gateway : Option ProviderSpec) (model : Str) : Str :=
  match gateway with
  | some gw =>
    let normalized := if gw.strip_model_pref then afterLastSlash model else model
    if gw.litellm_pref.isEmpty || (gw.litellm_pref ++ ['/']).isPrefixOf normalized then
      normalized
    else
      gw.litellm_pref ++ '/' :: normalized
  | none =>
    match find_by_model model with
    | some spec =>
      if !spec.litellm_pref.isEmpty &&
          !(spec.skip_prefs.any (fun pre => pre.isPrefixOf model)) then
        spec.litellm_pref ++ '/' :: model
      else model
    | none => model

/-- The loop body of `apply_model_overrides`: first rule whose pattern occurs
in the lowercased model and that carries a temperature wins. -/
def applyRules (model_lower : Str) : List ModelOverride → ℚ → ℚ
  | [], t => t
  | rule :: rest, t =>
    match rule.temperature, isInfixOfS rule.pattern model_lower with
    | some v, true => v
    | _, _ => applyRules model_lower rest t

/-- `LiteLLMProvider::apply_model_overrides` (src lines 337-349), returning
the effective temperature instead of mutating it. -/
def apply_model_overrides (model : Str) (temperature : ℚ) : ℚ :=
  match find_by_model model with
  | some spec => applyRules (toLowerS model) spec.model_overrides temperature
  | none => temperature

/-- Process environment state: a partial map from variable names to values. -/
def Env : Type := Str → Option Str

/-- `LiteLLMProvider::set_env_var` (src lines 390-401) as an `Env` update. -/
def set_env_var (key value : Str) (overwrite : Bool) (env : Env) : Env :=
  if key.isEmpty || value.isEmpty then env
  else if !overwrite && (env key).isSome then env
  else fun k => if k = key then some value else env k

/-- The template substitution inside `setup_env` (src lines 382-385). -/
def subst_template (template api_key base : Str) : Str :=
  replaceS (replaceS template (chars "{api_key}") api_key) (chars "{api_base}") base

/-- `LiteLLMProvider::setup_env` (src lines 371-388) as an `Env` transformer. -/
def setup_env (gateway : Option ProviderSpec) (api_key : Str)
    (api_base : Option Str) (model : Str) (env : Env) : Env :=
  match gateway.orElse (fun _ => find_by_model model) with
  | none => env
  | some spec =>
    let env1 :=
      if !spec.env_key.isEmpty then
        set_env_var spec.env_key api_key gateway.isSome env
      else env
    let effective_base := api_base.getD spec.default_api_base
    spec.env_extras.foldl
      (fun e extra =>
        set_env_var extra.key (subst_template extra.value_template api_key effective_base)
          false e)
      env1

/-- The environment effect of `LiteLLMProvider::new` (src lines 275-307):
the gateway is selected first (with an empty api key passed as absent), and
`setup_env` runs only when the api key is non-empty. -/
def new_env_effect (api_key : Str) (api_base : Option Str)
    (default_model : Str) (provider_name : Option Str) (env : Env) : Env :=
  let gateway :=
    find_gateway provider_name (if api_key.isEmpty then none else some api_key) api_base
  if api_key.isEmpty then env
  else setup_env gateway api_key api_base default_model env

/-- The invocation step of `LiteLLMProvider::chat` (src lines 523-548),
with the external `litellm_rs::completion` call abstracted as the oracle
`call` (the source passes the same messages and options to both attempts,
so the oracle depends only on the model string).  Returns the outcome
together with the list of model identifiers attempted, in order. -/
def chat_invoke {α : Type} (resolved_model selected_model : Str)
    (call : Str → Except Str α) : Except Str α × List Str :=
  match call resolved_model with
  | .ok resp => (.ok resp, [resolved_model])
  | .error primary_err =>
    if resolved_model ≠ selected_model then
      match call selected_model with
      | .ok resp => (.ok resp, [resolved_model, selected_model])
      | .error fallback_err =>
        (.error (chars "failed to call litellm-rs completion: primary=" ++ primary_err
                  ++ chars "; fallback=" ++ fallback_err),
         [resolved_model, selected_model])
    else
      (.error (chars "failed to call litellm-rs completion: " ++ primary_err),
       [resolved_model])

/-- The tool-call argument normalization of `LiteLLMProvider::chat`
(src lines 573-581): parse the backend's argument string as JSON and keep
the object's fields, else fall back to a single-entry `raw` map.  The
external `serde_json::from_str` is the oracle `parse`. -/
def tool_call_arguments (parse : Str → Option Json) (args : Str) :
    List (Str × Json) :=
  match (parse args).bind Json.asObject with
  | some fields => fields
  | none => [(chars "raw", Json.str args)]

/-- The inner balanced-brace scan of `extract_json_object`
(src turn_guard.rs lines 120-159).  `remaining` is the text from the current
start position on, `acc_rev` the consumed characters in reverse. -/
def innerScan (parse : Str → Option Json) :
    Str → Str → Bool → Bool → Nat → Option Json
  | [], _, _, _, _ => none
  | c :: rest, acc_rev, in_string, escaped, depth =>
    if in_string then
      if escaped then innerScan parse rest (c :: acc_rev) true false depth
      else if c = '\\' then innerScan parse rest (c :: acc_rev) true true depth
      else if c = '"' then innerScan parse rest (c :: acc_rev) false false depth
      else innerScan parse rest (c :: acc_rev) true false depth
    else if c = '"' then innerScan parse rest (c :: acc_rev) true false depth
    else if c = '{' then innerScan parse rest (c :: acc_rev) false false (depth + 1)
    else if c = '}' then
      if depth = 0 then none
      else if depth = 1 then
        match parse (c :: acc_rev).reverse with
        | some value => if value.isObj then some value else none
        | none => none
      else innerScan parse rest (c :: acc_rev) false false (depth - 1)
    else innerScan parse rest (c :: acc_rev) false false depth

/-- The outer loop of `extract_json_object` (src turn_guard.rs lines 115-160):
try a balanced-brace candidate at every `'{'` position. -/
def outerScan (parse : Str → Option Json) : Str → Option Json
  | [] => none
  | c :: rest =>
    if c = '{' then
      match innerScan parse (c :: rest) [] false false 0 with
      | some value => some value
      | none => outerScan parse rest
    else outerScan parse rest

/-- `extract_json_object` (src turn_guard.rs lines 107-162): parse the
trimmed text whole, else scan for an embedded balanced JSON object. -/
def extract_json_object (parse : Str → Option Json) (text : Str) : Option Json :=
  match parse (trimS text) with
  | some value => if value.isObj then some value else outerScan parse text
  | none => outerScan parse text

/-- The part of the backend chat response that
`TurnGuard::response_claims_no_tools` inspects. -/
structure ClassifierResponse where
  content : Option Str

/-- `TurnGuard::response_claims_no_tools` (src turn_guard.rs lines 63-104),
with the provider `chat` call abstracted as its outcome `chat_result`. -/
def response_claims_no_tools (parse : Str → Option Json)
    (tools_text content : Str)
    (chat_result : Except Str ClassifierResponse) : Bool :=
  if (trimS content).isEmpty || tools_text == chars "(none)" then false
  else
    match chat_result with
    | .error _ => false
    | .ok resp =>
      match resp.content with
      | none => false
      | some classifier_text =>
        match extract_json_object parse classifier_text with
        | none => false
        | some value =>
          match jsonLookup value (chars "claims_no_tools") with
          | some (Json.bool b) => b
          | _ => false

/-! ## Helper lemmas -/

theorem isInfixOfS_iff {n h : Str} : isInfixOfS n h = true ↔ n <:+: h := by
  induction h with
  | nil => simp [isInfixOfS, List.isEmpty_iff]
  | cons c t ih =>
    simp only [isInfixOfS, Bool.or_eq_true, List.isPrefixOf_iff_prefix, ih,
      List.infix_cons_iff]

theorem mem_takeWhile_pred {p : Char → Bool} :
    ∀ {l : Str} {a : Char}, a ∈ l.takeWhile p → p a = true := by
  intro l
  induction l with
  | nil => intro a h; simp [List.takeWhile] at h
  | cons c t ih =>
    intro a h
    by_cases hc : p c
    · rw [List.takeWhile_cons_of_pos hc] at h
      rcases List.mem_cons.mp h with rfl | h
      · exact hc
      · exact ih h
    · rw [List.takeWhile_cons_of_neg hc] at h
      simp at h

theorem takeWhile_eq_self_of_forall {p : Char → Bool} :
    ∀ {l : Str}, (∀ a ∈ l, p a = true) → l.takeWhile p = l := by
  intro l
  induction l with
  | nil => intro _; rfl
  | cons c t ih =>
    intro h
    rw [List.takeWhile_cons_of_pos (h c (List.mem_cons_self c t))]
    rw [ih (fun a ha => h a (List.mem_cons_of_mem c ha))]

theorem takeWhile_append_stop {p : Char → Bool} {xs ys : Str} {y : Char}
    (hxs : ∀ a ∈ xs, p a = true) (hy : p y = false) :
    (xs ++ y :: ys).takeWhile p = xs := by
  induction xs with
  | nil => simpa [List.takeWhile] using List.takeWhile_cons_of_neg (by simp [hy])
  | cons c t ih =>
    rw [List.cons_append, List.takeWhile_cons_of_pos (hxs c (List.mem_cons_self c t))]
    rw [ih (fun a ha => hxs a (List.mem_cons_of_mem c ha))]

theorem afterLastSlash_no_slash (s : Str) : '/' ∉ afterLastSlash s := by
  intro hmem
  have := mem_takeWhile_pred (List.mem_reverse.mp (by simpa [afterLastSlash] using hmem))
  simp at this

theorem afterLastSlash_of_no_slash {s : Str} (h : '/' ∉ s) : afterLastSlash s = s := by
  unfold afterLastSlash
  rw [takeWhile_eq_self_of_forall, List.reverse_reverse]
  intro a ha
  have : a ∈ s := List.mem_reverse.mp ha
  simp only [decide_eq_true_eq]
  intro rfl_eq
  exact h (rfl_eq ▸ this)

theorem afterLastSlash_append {a b : Str} (h : '/' ∉ b) :
    afterLastSlash (a ++ '/' :: b) = b := by
  unfold afterLastSlash
  rw [List.reverse_append, List.reverse_cons, List.append_assoc,
    List.singleton_append]
  rw [takeWhile_append_stop (p := fun c => decide (c ≠ '/'))
    (fun x hx => by
      have : x ∈ b := List.mem_reverse.mp hx
      simp only [decide_eq_true_eq]
      intro rfl_eq
      exact h (rfl_eq ▸ this))
    (by simp)]
  exact List.reverse_reverse b

theorem mem_of_isPrefixOf {p n : Str} {a : Char}
    (hp : p.isPrefixOf n = true) (ha : a ∈ p) : a ∈ n :=
  (List.isPrefixOf_iff_prefix.mp hp).subset ha

theorem isPrefixOf_append_right (p m : Str) :
    p.isPrefixOf (p ++ m) = true :=
  List.isPrefixOf_iff_prefix.mpr (List.prefix_append p m)

theorem isPrefixOf_extend {p q m : Str} (h : p.isPrefixOf q = true) :
    p.isPrefixOf (q ++ m) = true :=
  List.isPrefixOf_iff_prefix.mpr
    ((List.isPrefixOf_iff_prefix.mp h).trans (List.prefix_append q m))

/-! ## Claim theorems -/

/-- C10: a provider constructed with an empty API key skips environment
provisioning entirely — `new_env_effect` leaves every environment key, the
credential key and all auxiliary keys included, exactly as it found it. -/
theorem new_empty_key_no_env_writes (api_base : Option Str)
    (default_model : Str) (provider_name : Option Str) (env : Env) :
    new_env_effect [] api_base default_model provider_name env = env := by
  rfl

/-- C1: in `chat`, the fallback call with the raw (unresolved) identifier is
attempted if and only if the primary call with the resolved identifier failed
and the two identifiers differ; when both fail the surfaced error contains
both failure messages; when the identifiers are identical a single primary
failure is surfaced with no second attempt. -/
theorem chat_invoke_fallback_spec {α : Type} (resolved selected : Str)
    (call : Str → Except Str α) :
    ((chat_invoke resolved selected call).2 = [resolved, selected] ↔
      ((∃ p, call resolved = .error p) ∧ resolved ≠ selected))
    ∧ ((chat_invoke resolved selected call).2 = [resolved, selected] ∨
       (chat_invoke resolved selected call).2 = [resolved])
    ∧ (∀ p f, call resolved = .error p → call selected = .error f →
        resolved ≠ selected →
        ∃ e, (chat_invoke resolved selected call).1 = .error e ∧ p <:+: e ∧ f <:+: e)
    ∧ (∀ p, call resolved = .error p → resolved = selected →
        (chat_invoke resolved selected call).1 =
          .error (chars "failed to call litellm-rs completion: " ++ p)
        ∧ (chat_invoke resolved selected call).2 = [resolved]) := by
  refine ⟨?_, ?_, ?_, ?_⟩
  · constructor
    · intro hatt
      cases hc : call resolved with
      | ok r => simp [chat_invoke, hc] at hatt
      | error p =>
        by_cases hsel : resolved = selected
        · subst hsel; simp [chat_invoke, hc] at hatt
        · exact ⟨⟨p, rfl⟩, hsel⟩
    · rintro ⟨⟨p, hp⟩, hne⟩
      cases hf : call selected <;> simp [chat_invoke, hp, hf, hne]
  · cases hc : call resolved with
    | ok r => right; simp [chat_invoke, hc]
    | error p =>
      by_cases hsel : resolved = selected
      · subst hsel; right; simp [chat_invoke, hc]
      · cases hf : call selected <;> left <;> simp [chat_invoke, hc, hf, hsel]
  · intro p f hp hf hne
    refine ⟨chars "failed to call litellm-rs completion: primary=" ++ p
      ++ chars "; fallback=" ++ f, by simp [chat_invoke, hp, hf, hne], ?_, ?_⟩
    · exact ⟨chars "failed to call litellm-rs completion: primary=",
        chars "; fallback=" ++ f, by simp⟩
    · exact ⟨chars "failed to call litellm-rs completion: primary=" ++ p
        ++ chars "; fallback=", [], by simp⟩
  · intro p hp heq
    subst heq
    constructor <;> simp [chat_invoke, hp]

/-- Closed witness for the C1 theorem at concrete oracles: a failing primary
with a differing raw identifier produces an aggregate error containing both
messages, and identical identifiers produce the single error immediately. -/
theorem chat_invoke_fallback_spec_witness :
    (∃ e, (chat_invoke (α := Unit) (chars "a/m") (chars "m")
        (fun s => .error (if s = chars "a/m" then chars "P" else chars "F"))).1 =
          .error e ∧ chars "P" <:+: e ∧ chars "F" <:+: e)
    ∧ ((chat_invoke (α := Unit) (chars "m") (chars "m")
        (fun _ => .error (chars "P"))).1 =
          .error (chars "failed to call litellm-rs completion: " ++ chars "P")
      ∧ (chat_invoke (α := Unit) (chars "m") (chars "m")
          (fun _ => .error (chars "P"))).2 = [chars "m"]) := by
  constructor
  · exact (chat_invoke_fallback_spec (chars "a/m") (chars "m") _).2.2.1
      (chars "P") (chars "F") (by rw [if_pos rfl]) (by rw [if_neg (by decide)])
      (by decide)
  · exact (chat_invoke_fallback_spec (chars "m") (chars "m") _).2.2.2
      (chars "P") rfl rfl

/-- C8: normalized tool-call arguments are exactly the parsed JSON object's
fields when the backend's argument string parses as a JSON object, and
otherwise the single-entry map `raw ↦ original string`; the argument text is
never dropped. -/
theorem tool_call_arguments_spec (parse : Str → Option Json) (args : Str) :
    (∀ fields, parse args = some (Json.obj fields) →
      tool_call_arguments parse args = fields)
    ∧ ((∀ fields, parse args ≠ some (Json.obj fields)) →
      tool_call_arguments parse args = [(chars "raw", Json.str args)]) := by
  refine ⟨?_, ?_⟩
  · intro fields h
    simp [tool_call_arguments, h, Json.asObject]
  · intro hno
    have hb : (parse args).bind Json.asObject = none := by
      cases hp : parse args with
      | none => rfl
      | some v =>
        cases v with
        | obj fields => exact absurd hp (hno fields)
        | null => rfl
        | bool b => rfl
        | num q => rfl
        | str s => rfl
        | arr xs => rfl
    simp [tool_call_arguments, hb]

/-- Closed witness for the C8 theorem: a parsing argument string keeps its
object fields; a non-parsing one is preserved under the `raw` key. -/
theorem tool_call_arguments_spec_witness :
    tool_call_arguments
      (fun s => if s = chars "{}" then some (Json.obj [(chars "a", Json.num 1)]) else none)
      (chars "{}") = [(chars "a", Json.num 1)]
    ∧ tool_call_arguments (fun _ => none) (chars "oops")
        = [(chars "raw", Json.str (chars "oops"))] := by
  constructor
  · exact (tool_call_arguments_spec _ _).1 _ (by rw [if_pos rfl])
  · exact (tool_call_arguments_spec _ _).2 (fun fields h => by simp at h)

/-- Generic characterization of a successful `List.find?`: the hit satisfies
the predicate and everything before it fails it. -/
theorem find?_eq_some_split {α : Type} {p : α → Bool} :
    ∀ {L : List α} {x : α}, L.find? p = some x →
      p x = true ∧ ∃ pre post, L = pre ++ x :: post ∧ ∀ y ∈ pre, p y = false := by
  intro L
  induction L with
  | nil => intro x h; simp [List.find?] at h
  | cons a t ih =>
    intro x h
    by_cases ha : p a
    · rw [List.find?_cons_of_pos t ha] at h
      cases h
      exact ⟨ha, [], t, rfl, by simp⟩
    · rw [List.find?_cons_of_neg t ha] at h
      obtain ⟨hx, pre, post, rfl, hpre⟩ := ih h
      refine ⟨hx, a :: pre, post, rfl, ?_⟩
      intro y hy
      rcases List.mem_cons.mp hy with rfl | hy
      · exact Bool.eq_false_iff.mpr ha
      · exact hpre y hy

/-- Spec-worded auto-detection predicate of the Gateway Selector (§4.1):
the api key starts with the descriptor's non-empty key prefix, or the base
url contains the descriptor's non-empty base keyword; empty fields never
match.  Stated from the spec's words, to be compared with `detectMatches`. -/
def DetectProp (spec : ProviderSpec) (api_key api_base : Option Str) : Prop :=
  (spec.detect_by_key_pref ≠ [] ∧ ∃ k, api_key = some k ∧ spec.detect_by_key_pref <+: k)
  ∨ (spec.detect_by_base_keyword ≠ [] ∧
      ∃ b, api_base = some b ∧ spec.detect_by_base_keyword <:+: b)

theorem detectMatches_iff {spec : ProviderSpec} {api_key api_base : Option Str} :
    detectMatches api_key api_base spec = true ↔ DetectProp spec api_key api_base := by
  unfold detectMatches DetectProp
  cases api_key <;> cases api_base <;>
    simp [List.isEmpty_iff, List.isPrefixOf_iff_prefix, isInfixOfS_iff]

/-- C3: the Gateway Selector returns the explicitly named descriptor
immediately when it is flagged gateway-or-local; otherwise it returns the
first catalog descriptor matched by the auto-detection signals (empty
detection fields never matching), and none when nothing matches; in
particular key `sk-or-abcdef` with no explicit name selects OpenRouter. -/
theorem find_gateway_spec :
    (∀ name api_key api_base spec, find_by_name name = some spec →
        (spec.is_gateway = true ∨ spec.is_local = true) →
        find_gateway (some name) api_key api_base = some spec)
    ∧ (∀ provider_name api_key api_base,
        (∀ spec, provider_name.bind find_by_name = some spec →
          spec.is_gateway = false ∧ spec.is_local = false) →
        find_gateway provider_name api_key api_base =
          PROVIDERS.find? (detectMatches api_key api_base))
    ∧ (∀ api_key api_base spec,
        PROVIDERS.find? (detectMatches api_key api_base) = some spec →
        spec ∈ PROVIDERS ∧ DetectProp spec api_key api_base ∧
          ∃ pre post, PROVIDERS = pre ++ spec :: post ∧
            ∀ s ∈ pre, ¬ DetectProp s api_key api_base)
    ∧ (∀ api_key api_base, (∀ s ∈ PROVIDERS, ¬ DetectProp s api_key api_base) →
        PROVIDERS.find? (detectMatches api_key api_base) = none)
    ∧ find_gateway none (some (chars "sk-or-abcdef")) none = some openrouterSpec := by
  refine ⟨?_, ?_, ?_, ?_, by decide⟩
  · intro name api_key api_base spec hname hflag
    unfold find_gateway
    have hbind : (some name).bind find_by_name = find_by_name name := rfl
    rw [hbind, hname]
    have hflag2 : (spec.is_gateway || spec.is_local) = true := by
      rcases hflag with h | h <;> simp [h]
    simp [hflag2]
  · intro provider_name api_key api_base hno
    unfold find_gateway
    cases hb : provider_name.bind find_by_name with
    | none => rfl
    | some spec =>
      obtain ⟨hg, hl⟩ := hno spec hb
      simp [hg, hl]
  · intro api_key api_base spec hfind
    obtain ⟨hx, pre, post, heq, hpre⟩ := find?_eq_some_split hfind
    refine ⟨List.mem_of_find?_eq_some hfind, detectMatches_iff.mp hx,
      pre, post, heq, ?_⟩
    intro s hs
    exact fun hd => by simpa [detectMatches_iff.mpr hd] using hpre s hs
  · intro api_key api_base hnone
    exact List.find?_eq_none.mpr
      (fun s hs => fun hd => hnone s hs (detectMatches_iff.mp hd))

/-- Closed witness for the C3 theorem: the explicitly named local `vllm`
descriptor wins even when the key would auto-detect OpenRouter, and a
detection-less call scans to none. -/
theorem find_gateway_spec_witness :
    find_gateway (some (chars "vllm")) (some (chars "sk-or-x")) none = some vllmSpec
    ∧ PROVIDERS.find? (detectMatches none none) = none := by
  constructor
  · exact find_gateway_spec.1 (chars "vllm") (some (chars "sk-or-x")) none vllmSpec
      (by decide) (Or.inr (by decide))
  · exact find_gateway_spec.2.2.2.1 none none
      (fun s hs hd => by
        rcases hd with ⟨_, k, hk, _⟩ | ⟨_, b, hb, _⟩
        · cases hk
        · cases hb)

/-- Spec-worded gateway-branch resolution, step 1 of the Model Name Resolver
(§4.2): optionally strip everything up to and including the last slash, then
return unchanged when the backend prefix is empty or already present, else
prepend it.  Stated from the spec's words, to be compared with
`resolve_model`. -/
def gatewayResolveSpec (gw : ProviderSpec) (model : Str) : Str :=
  let ident := if gw.strip_model_pref then afterLastSlash model else model
  if gw.litellm_pref = [] ∨ (gw.litellm_pref ++ ['/']) <+: ident then ident
  else gw.litellm_pref ++ '/' :: ident

/-- C4: with a gateway selected, `resolve_model` implements exactly step 1 of
the resolver algorithm; in particular a base URL containing `aihubmix`
selects the aihubmix gateway and `anthropic/claude-3-7-sonnet` resolves to
`openai/claude-3-7-sonnet`. -/
theorem resolve_model_gateway_spec :
    (∀ gw model, resolve_model (some gw) model = gatewayResolveSpec gw model)
    ∧ find_gateway none none (some (chars "https://aihubmix.com/v1")) = some aihubmixSpec
    ∧ resolve_model (some aihubmixSpec) (chars "anthropic/claude-3-7-sonnet")
        = chars "openai/claude-3-7-sonnet" := by
  refine ⟨?_, by decide, by decide⟩
  intro gw model
  unfold resolve_model gatewayResolveSpec
  apply if_congr _ rfl rfl
  simp [List.isEmpty_iff, List.isPrefixOf_iff_prefix]

theorem applyRules_no_fire {ml : Str} :
    ∀ {rules : List ModelOverride} {t : ℚ},
      (∀ rule ∈ rules, isInfixOfS rule.pattern ml = false ∨ rule.temperature = none) →
      applyRules ml rules t = t := by
  intro rules
  induction rules with
  | nil => intro t _; rfl
  | cons r rest ih =>
    intro t h
    have hr := h r (List.mem_cons_self r rest)
    have hrest := fun q hq => h q (List.mem_cons_of_mem r hq)
    rcases hr with hf | hn
    · cases ht : r.temperature with
      | none =>
        simp only [applyRules, ht]
        exact ih hrest
      | some v =>
        simp only [applyRules, ht, hf]
        exact ih hrest
    · simp only [applyRules, hn]
      exact ih hrest

theorem applyRules_first_fire {ml : Str} :
    ∀ {pre : List ModelOverride} {rule : ModelOverride} {post : List ModelOverride}
      {t v : ℚ},
      (∀ q ∈ pre, isInfixOfS q.pattern ml = false ∨ q.temperature = none) →
      rule.temperature = some v → isInfixOfS rule.pattern ml = true →
      applyRules ml (pre ++ rule :: post) t = v := by
  intro pre
  induction pre with
  | nil =>
    intro rule post t v _ htemp hfire
    rw [List.nil_append]
    simp [applyRules, htemp, hfire]
  | cons q rest ih =>
    intro rule post t v h htemp hfire
    have hq := h q (List.mem_cons_self q rest)
    have hrest := fun x hx => h x (List.mem_cons_of_mem q hx)
    rw [List.cons_append]
    rcases hq with hf | hn
    · cases ht : q.temperature with
      | none =>
        simp only [applyRules, ht]
        exact ih hrest htemp hfire
      | some w =>
        simp only [applyRules, ht, hf]
        exact ih hrest htemp hfire
    · simp only [applyRules, hn]
      exact ih hrest htemp hfire

/-- C6: the Override Engine scans the matched vendor descriptor's rules in
declared order and replaces the temperature with the floor of the first rule
whose pattern occurs (case-insensitively) in the resolved identifier,
stopping there; with no matched descriptor or no firing rule the temperature
is untouched; in particular `moonshot/kimi-k2.5` at temperature 0.2 yields
1.0. -/
theorem apply_model_overrides_spec :
    (∀ model t, find_by_model model = none → apply_model_overrides model t = t)
    ∧ (∀ model t spec, find_by_model model = some spec →
        (∀ rule ∈ spec.model_overrides,
          isInfixOfS rule.pattern (toLowerS model) = false ∨ rule.temperature = none) →
        apply_model_overrides model t = t)
    ∧ (∀ model t spec pre rule post v, find_by_model model = some spec →
        spec.model_overrides = pre ++ rule :: post →
        (∀ q ∈ pre,
          isInfixOfS q.pattern (toLowerS model) = false ∨ q.temperature = none) →
        rule.temperature = some v →
        isInfixOfS rule.pattern (toLowerS model) = true →
        apply_model_overrides model t = v)
    ∧ apply_model_overrides (chars "moonshot/kimi-k2.5") ((0.2 : ℚ)) = 1 := by
  refine ⟨?_, ?_, ?_, by decide⟩
  · intro model t h
    simp [apply_model_overrides, h]
  · intro model t spec h hrules
    simp only [apply_model_overrides, h]
    exact applyRules_no_fire hrules
  · intro model t spec pre rule post v h hsplit hpre htemp hfire
    simp only [apply_model_overrides, h, hsplit]
    exact applyRules_first_fire hpre htemp hfire

/-- Closed witness for the C6 theorem: the kimi rule is the first firing rule
of the moonshot descriptor, and a vendor with no rules leaves the temperature
untouched. -/
theorem apply_model_overrides_spec_witness :
    apply_model_overrides (chars "kimi-k2.5-turbo") ((1 : ℚ) / 2) = 1
    ∧ apply_model_overrides (chars "deepseek-chat") ((1 : ℚ) / 2) = (1 : ℚ) / 2 := by
  constructor
  · exact apply_model_overrides_spec.2.2.1 (chars "kimi-k2.5-turbo") ((1 : ℚ) / 2)
      moonshotSpec [] { pattern := chars "kimi-k2.5", temperature := some 1 } [] 1
      (by decide) (by decide) (by intro q hq; cases hq) (by decide) (by decide)
  · exact apply_model_overrides_spec.2.1 (chars "deepseek-chat") ((1 : ℚ) / 2)
      deepseekSpec (by decide) (by intro rule hr; cases hr)

/-- C7 counterexample: the empty model identifier resolves (with no gateway)
to the empty identifier, so the resolver does not return a non-empty backend
identifier for every input. -/
theorem resolve_model_empty_counterexample :
    resolve_model none (chars "") = [] := by decide

/-- C7 (amended): for every non-empty model identifier and every gateway
choice drawn from the catalog (or no gateway), the Model Name Resolver is a
total function returning a non-empty backend identifier. -/
theorem resolve_model_nonempty (m : Str) (g : Option ProviderSpec)
    (hg : ∀ s, g = some s → s ∈ PROVIDERS) (hm : m ≠ []) :
    resolve_model g m ≠ [] := by
  cases g with
  | none =>
    cases hf : find_by_model m with
    | none => simpa [resolve_model, hf] using hm
    | some spec =>
      by_cases hc : (!spec.litellm_pref.isEmpty &&
          !(spec.skip_prefs.any (fun pre => pre.isPrefixOf m))) = true
      · simp [resolve_model, hf, hc]
      · simp only [resolve_model, hf, hc, if_false, Bool.false_eq_true]
        exact hm
  | some gw =>
    have hcat : gw ∈ PROVIDERS := hg gw rfl
    have hall : ∀ s ∈ PROVIDERS, s.strip_model_pref = false ∨ s.litellm_pref ≠ [] := by
      decide
    have hdisj := hall gw hcat
    cases hstrip : gw.strip_model_pref with
    | false =>
      by_cases hc : (gw.litellm_pref.isEmpty ||
          (gw.litellm_pref ++ ['/']).isPrefixOf m) = true
      · simpa [resolve_model, hstrip, hc] using hm
      · simp [resolve_model, hstrip, hc]
    | true =>
      have hpref : gw.litellm_pref ≠ [] := by
        rcases hdisj with h | h
        · rw [hstrip] at h; cases h
        · exact h
      by_cases hc : (gw.litellm_pref.isEmpty ||
          (gw.litellm_pref ++ ['/']).isPrefixOf (afterLastSlash m)) = true
      · have hp : (gw.litellm_pref ++ ['/']).isPrefixOf (afterLastSlash m) = true := by
          rcases Bool.or_eq_true_iff.mp hc with he | hp
          · exact absurd (List.isEmpty_iff.mp he) hpref
          · exact hp
        simp only [resolve_model, hstrip, if_true, hc]
        intro hnil
        rw [hnil] at hp
        have hlen := (List.isPrefixOf_iff_prefix.mp hp).length_le
        simp at hlen
      · simp [resolve_model, hstrip, hc]

/-- Closed witness for the C7 amended theorem at a concrete non-empty model
with no gateway and with the openrouter gateway. -/
theorem resolve_model_nonempty_witness :
    resolve_model none (chars "qwen-plus") ≠ []
    ∧ resolve_model (some openrouterSpec) (chars "m") ≠ [] := by
  constructor
  · exact resolve_model_nonempty (chars "qwen-plus") none
      (fun s h => nomatch h) (by decide)
  · exact resolve_model_nonempty (chars "m") (some openrouterSpec)
      (fun s h => by cases h; decide) (by decide)


theorem set_env_var_frame {key value : Str} {ow : Bool} {env : Env} {k : Str}
    (h : k ≠ key) : set_env_var key value ow env k = env k := by
  unfold set_env_var
  by_cases h1 : (key.isEmpty || value.isEmpty) = true
  · rw [if_pos h1]
  · rw [if_neg h1]
    by_cases h2 : (!ow && (env key).isSome) = true
    · rw [if_pos h2]
    · rw [if_neg h2]
      simp [h]

theorem set_env_var_at {key value : Str} {ow : Bool} {env : Env} :
    set_env_var key value ow env key =
      if (key.isEmpty || value.isEmpty) = true then env key
      else if (!ow && (env key).isSome) = true then env key
      else some value := by
  unfold set_env_var
  by_cases h1 : (key.isEmpty || value.isEmpty) = true
  · rw [if_pos h1, if_pos h1]
  · rw [if_neg h1, if_neg h1]
    by_cases h2 : (!ow && (env key).isSome) = true
    · rw [if_pos h2, if_pos h2]
    · rw [if_neg h2, if_neg h2]
      simp

theorem foldl_set_env_frame (val : EnvExtra → Str) :
    ∀ (extras : List EnvExtra) (env : Env) (k : Str),
      (∀ e ∈ extras, k ≠ e.key) →
      (extras.foldl
        (fun en extra => set_env_var extra.key (val extra) false en) env) k = env k := by
  intro extras
  induction extras with
  | nil => intro env k _; rfl
  | cons x rest ih =>
    intro env k h
    rw [List.foldl_cons]
    rw [ih _ k (fun e he => h e (List.mem_cons_of_mem x he))]
    exact set_env_var_frame (h x (List.mem_cons_self x rest))

theorem foldl_set_env_at (val : EnvExtra → Str) :
    ∀ (extras : List EnvExtra) (env : Env) (e : EnvExtra),
      e ∈ extras → extras.Pairwise (fun a b => a.key ≠ b.key) →
      (extras.foldl
        (fun en extra => set_env_var extra.key (val extra) false en) env) e.key =
      (if (e.key.isEmpty || (val e).isEmpty) = true then env e.key
       else if (env e.key).isSome then env e.key
       else some (val e)) := by
  intro extras
  induction extras with
  | nil => intro env e he _; cases he
  | cons x rest ih =>
    intro env e he hpw
    rw [List.foldl_cons]
    rcases List.mem_cons.mp he with rfl | he2
    · rw [foldl_set_env_frame val rest _ e.key
        (fun y hy => (List.pairwise_cons.mp hpw).1 y hy)]
      rw [set_env_var_at]
      simp
    · have hxk : x.key ≠ e.key := (List.pairwise_cons.mp hpw).1 e he2
      have henv : set_env_var x.key (val x) false env e.key = env e.key :=
        set_env_var_frame (fun hh => hxk hh.symm)
      rw [ih _ e he2 (List.pairwise_cons.mp hpw).2, henv]

/-- C5: `setup_env` writes only the resolved descriptor's credential key and
its auxiliary keys (and nothing when no descriptor resolves); the credential
is written with overwrite exactly when a gateway is selected (vendor
credentials only when currently unset); each auxiliary entry is written with
its template substituted from the credential and the effective base URL,
never overwriting, and an empty key or empty substituted value is a no-op. -/
theorem setup_env_spec (gateway : Option ProviderSpec) (api_key : Str)
    (api_base : Option Str) (model : Str) (env : Env) :
    (gateway.orElse (fun _ => find_by_model model) = none →
      setup_env gateway api_key api_base model env = env)
    ∧ (∀ spec, gateway.orElse (fun _ => find_by_model model) = some spec →
        spec.env_extras.Pairwise (fun a b => a.key ≠ b.key) →
        (∀ e ∈ spec.env_extras, e.key ≠ spec.env_key) →
        ((∀ k, k ≠ spec.env_key → (∀ e ∈ spec.env_extras, k ≠ e.key) →
            setup_env gateway api_key api_base model env k = env k)
         ∧ (spec.env_key ≠ [] →
            setup_env gateway api_key api_base model env spec.env_key =
              if api_key = [] then env spec.env_key
              else if gateway.isSome then some api_key
              else if (env spec.env_key).isSome then env spec.env_key
              else some api_key)
         ∧ (∀ e ∈ spec.env_extras,
            setup_env gateway api_key api_base model env e.key =
              if (e.key.isEmpty ||
                  (subst_template e.value_template api_key
                    (api_base.getD spec.default_api_base)).isEmpty) = true then
                env e.key
              else if (env e.key).isSome then env e.key
              else some (subst_template e.value_template api_key
                (api_base.getD spec.default_api_base))))) := by
  constructor
  · intro hnone
    simp [setup_env, hnone]
  · intro spec hspec hpw hdist
    have hval : setup_env gateway api_key api_base model env =
        spec.env_extras.foldl
          (fun en extra => set_env_var extra.key
            (subst_template extra.value_template api_key
              (api_base.getD spec.default_api_base)) false en)
          (if !spec.env_key.isEmpty then
            set_env_var spec.env_key api_key gateway.isSome env
          else env) := by
      simp [setup_env, hspec]
    refine ⟨?_, ?_, ?_⟩
    · intro k hk hke
      rw [hval]
      rw [foldl_set_env_frame _ _ _ k hke]
      by_cases hg : (!spec.env_key.isEmpty) = true
      · rw [if_pos hg]
        exact set_env_var_frame hk
      · rw [if_neg hg]
    · intro hne
      rw [hval]
      rw [foldl_set_env_frame _ _ _ spec.env_key
        (fun e he => fun hh => hdist e he hh.symm)]
      rw [if_pos (by simpa [List.isEmpty_iff] using hne)]
      rw [set_env_var_at]
      by_cases hak : api_key = [] <;> cases hgw : gateway.isSome <;>
        by_cases hs : (env spec.env_key).isSome <;>
          simp [List.isEmpty_iff, hne, hak, hs]
    · intro e he
      rw [hval]
      rw [foldl_set_env_at _ _ _ e he hpw]
      have henv1 : (if !spec.env_key.isEmpty then
          set_env_var spec.env_key api_key gateway.isSome env
        else env) e.key = env e.key := by
        by_cases hg : (!spec.env_key.isEmpty) = true
        · rw [if_pos hg]
          exact set_env_var_frame (hdist e he)
        · rw [if_neg hg]
      rw [henv1]

/-- Closed witness for the C5 theorem at the moonshot descriptor (vendor,
selected by the default model, one auxiliary base-URL entry) on an initially
empty environment. -/
theorem setup_env_spec_witness :
    (Option.orElse none (fun _ => find_by_model (chars "kimi-k2.5")) =
      some moonshotSpec)
    ∧ ((setup_env none (chars "K") none (chars "kimi-k2.5")
          (fun _ => none)) (chars "MOONSHOT_API_KEY") = some (chars "K")
       ∧ (setup_env none (chars "K") none (chars "kimi-k2.5")
          (fun _ => none)) (chars "MOONSHOT_API_BASE") =
            some (chars "https://api.moonshot.ai/v1")
       ∧ (setup_env none (chars "K") none (chars "kimi-k2.5")
          (fun _ => none)) (chars "OTHER") = none) := by
  have hspec : Option.orElse none (fun _ => find_by_model (chars "kimi-k2.5")) =
      some moonshotSpec := by decide
  have h := (setup_env_spec none (chars "K") none (chars "kimi-k2.5")
    (fun _ => none)).2 moonshotSpec hspec
    (List.pairwise_singleton _ _) (by decide)
  refine ⟨hspec, ?_, ?_, ?_⟩
  · exact (h.2.1 (by decide)).trans (by decide)
  · exact (h.2.2
      (EnvExtra.mk (chars "MOONSHOT_API_BASE") (chars "{api_base}"))
      (by decide)).trans (by decide)
  · exact h.1 (chars "OTHER") (by decide) (by decide)

theorem trimS_infix (s : Str) : trimS s <:+: s := by
  have h1 : s.dropWhile Char.isWhitespace <:+ s := List.dropWhile_suffix _
  have h3 : (s.dropWhile Char.isWhitespace).reverse.dropWhile Char.isWhitespace
      <:+ (s.dropWhile Char.isWhitespace).reverse := List.dropWhile_suffix _
  have h2 : trimS s <+: s.dropWhile Char.isWhitespace := by
    unfold trimS
    rw [← List.reverse_suffix]
    simpa using h3
  exact (h2.isInfix).trans h1.isInfix

theorem innerScan_some {parse : Str → Option Json} :
    ∀ {rem : Str} {acc_rev : Str} {ins esc : Bool} {d : Nat} {v : Json},
      innerScan parse rem acc_rev ins esc d = some v →
      ∃ pre, pre <+: rem ∧ parse (acc_rev.reverse ++ pre) = some v ∧
        v.isObj = true := by
  intro rem
  induction rem with
  | nil => intro acc_rev ins esc d v h; cases h
  | cons c rest ih =>
    intro acc_rev ins esc d v h
    unfold innerScan at h
    split_ifs at h
    all_goals
      first
      | cases h
      | (obtain ⟨pre, hpre, hparse, hobj⟩ := ih h
         exact ⟨c :: pre, List.cons_prefix_cons.mpr ⟨rfl, hpre⟩,
           by simpa using hparse, hobj⟩)
      | (cases hp : parse (c :: acc_rev).reverse with
         | none =>
           simp only [hp] at h
           cases h
         | some w =>
           simp only [hp] at h
           by_cases hobj : w.isObj = true
           · rw [if_pos hobj] at h
             cases h
             exact ⟨[c], List.cons_prefix_cons.mpr ⟨rfl, List.nil_prefix⟩,
               by simpa using hp, hobj⟩
           · rw [if_neg hobj] at h
             cases h)

theorem outerScan_some {parse : Str → Option Json} :
    ∀ {text : Str} {v : Json}, outerScan parse text = some v →
      ∃ sub, sub <:+: text ∧ parse sub = some v ∧ v.isObj = true := by
  intro text
  induction text with
  | nil => intro v h; cases h
  | cons c rest ih =>
    intro v h
    unfold outerScan at h
    by_cases hc : c = '{'
    · rw [if_pos hc] at h
      cases hi : innerScan parse (c :: rest) [] false false 0 with
      | some w =>
        rw [hi] at h
        cases h
        obtain ⟨pre, hpre, hparse, hobj⟩ := innerScan_some hi
        exact ⟨pre, hpre.isInfix, by simpa using hparse, hobj⟩
      | none =>
        rw [hi] at h
        obtain ⟨sub, hsub, hparse, hobj⟩ := ih h
        exact ⟨sub, List.infix_cons_iff.mpr (Or.inr hsub), hparse, hobj⟩
    · rw [if_neg hc] at h
      obtain ⟨sub, hsub, hparse, hobj⟩ := ih h
      exact ⟨sub, List.infix_cons_iff.mpr (Or.inr hsub), hparse, hobj⟩

theorem extract_json_object_some {parse : Str → Option Json} {text : Str}
    {v : Json} (h : extract_json_object parse text = some v) :
    v.isObj = true ∧ ∃ sub, sub <:+: text ∧ parse sub = some v := by
  unfold extract_json_object at h
  cases hp : parse (trimS text) with
  | none =>
    simp only [hp] at h
    obtain ⟨sub, hsub, hparse, hobj⟩ := outerScan_some h
    exact ⟨hobj, sub, hsub, hparse⟩
  | some w =>
    simp only [hp] at h
    by_cases hobj : w.isObj = true
    · rw [if_pos hobj] at h
      cases h
      exact ⟨hobj, trimS text, trimS_infix text, hp⟩
    · rw [if_neg hobj] at h
      obtain ⟨sub, hsub, hparse, hobj2⟩ := outerScan_some h
      exact ⟨hobj2, sub, hsub, hparse⟩

/-- C9: the no-tools-claim classifier returns false under every failure mode
(chat error, absent content, no extractable JSON object, missing or
non-boolean `claims_no_tools` key), and returns true only when the classifier
reply contains a JSON object whose `claims_no_tools` is true. -/
theorem response_claims_no_tools_spec (parse : Str → Option Json)
    (tools_text content : Str) (chat_result : Except Str ClassifierResponse) :
    (∀ e, chat_result = .error e →
      response_claims_no_tools parse tools_text content chat_result = false)
    ∧ (∀ resp, chat_result = .ok resp → resp.content = none →
      response_claims_no_tools parse tools_text content chat_result = false)
    ∧ (∀ resp t, chat_result = .ok resp → resp.content = some t →
      extract_json_object parse t = none →
      response_claims_no_tools parse tools_text content chat_result = false)
    ∧ (∀ resp t v, chat_result = .ok resp → resp.content = some t →
      extract_json_object parse t = some v →
      (∀ b, jsonLookup v (chars "claims_no_tools") ≠ some (Json.bool b)) →
      response_claims_no_tools parse tools_text content chat_result = false)
    ∧ (response_claims_no_tools parse tools_text content chat_result = true →
      ∃ resp t v, chat_result = .ok resp ∧ resp.content = some t ∧
        extract_json_object parse t = some v ∧
        jsonLookup v (chars "claims_no_tools") = some (Json.bool true) ∧
        v.isObj = true ∧ ∃ sub, sub <:+: t ∧ parse sub = some v) := by
  by_cases hguard : ((trimS content).isEmpty || tools_text == chars "(none)") = true
  · refine ⟨?_, ?_, ?_, ?_, ?_⟩
    · intro e _; simp [response_claims_no_tools, hguard]
    · intro resp _ _; simp [response_claims_no_tools, hguard]
    · intro resp t _ _ _; simp [response_claims_no_tools, hguard]
    · intro resp t v _ _ _ _; simp [response_claims_no_tools, hguard]
    · intro htrue
      unfold response_claims_no_tools at htrue
      rw [if_pos hguard] at htrue
      cases htrue
  · refine ⟨?_, ?_, ?_, ?_, ?_⟩
    · intro e he
      simp [response_claims_no_tools, hguard, he]
    · intro resp hok hcont
      simp [response_claims_no_tools, hguard, hok, hcont]
    · intro resp t hok hcont hext
      simp [response_claims_no_tools, hguard, hok, hcont, hext]
    · intro resp t v hok hcont hext hlk
      cases hl : jsonLookup v (chars "claims_no_tools") with
      | none => simp [response_claims_no_tools, hguard, hok, hcont, hext, hl]
      | some w =>
        cases w with
        | bool b => exact absurd hl (hlk b)
        | null => simp [response_claims_no_tools, hguard, hok, hcont, hext, hl]
        | num q => simp [response_claims_no_tools, hguard, hok, hcont, hext, hl]
        | str s2 => simp [response_claims_no_tools, hguard, hok, hcont, hext, hl]
        | arr xs => simp [response_claims_no_tools, hguard, hok, hcont, hext, hl]
        | obj fs => simp [response_claims_no_tools, hguard, hok, hcont, hext, hl]
    · intro htrue
      unfold response_claims_no_tools at htrue
      rw [if_neg hguard] at htrue
      cases hres : chat_result with
      | error e =>
        rw [hres] at htrue
        simp at htrue
      | ok resp =>
        rw [hres] at htrue
        cases hcont : resp.content with
        | none => simp [hcont] at htrue
        | some t =>
          cases hext : extract_json_object parse t with
          | none => simp [hcont, hext] at htrue
          | some v =>
            cases hl : jsonLookup v (chars "claims_no_tools") with
            | none => simp [hcont, hext, hl] at htrue
            | some w =>
              cases w with
              | bool b =>
                cases b with
                | false => simp [hcont, hext, hl] at htrue
                | true =>
                  obtain ⟨hobj, sub, hsub, hparse⟩ :=
                    extract_json_object_some hext
                  exact ⟨resp, t, v, rfl, hcont, hext, hl, hobj,
                    sub, hsub, hparse⟩
              | null => simp [hcont, hext, hl] at htrue
              | num q => simp [hcont, hext, hl] at htrue
              | str s2 => simp [hcont, hext, hl] at htrue
              | arr xs => simp [hcont, hext, hl] at htrue
              | obj fs => simp [hcont, hext, hl] at htrue

/-- Closed witness for the C9 theorem: a failed chat call yields false, and
an extracted object lacking the boolean key yields false. -/
theorem response_claims_no_tools_spec_witness :
    response_claims_no_tools (fun _ => none) (chars "browser") (chars "hi")
      (.error (chars "network down")) = false
    ∧ response_claims_no_tools (fun _ => some (Json.obj [])) (chars "browser")
      (chars "hi") (.ok ⟨some (chars "x")⟩) = false := by
  constructor
  · exact (response_claims_no_tools_spec (fun _ => none) (chars "browser")
      (chars "hi") (.error (chars "network down"))).1 (chars "network down") rfl
  · exact (response_claims_no_tools_spec (fun _ => some (Json.obj []))
      (chars "browser") (chars "hi") (.ok ⟨some (chars "x")⟩)).2.2.2.1
      ⟨some (chars "x")⟩ (chars "x") (Json.obj []) rfl rfl (by rfl)
      (fun b => by simp [jsonLookup, List.find?])

theorem toLowerS_append_slash (a b : Str) :
    toLowerS (a ++ '/' :: b) = toLowerS a ++ '/' :: toLowerS b := by
  unfold toLowerS
  rw [List.map_append, List.map_cons]
  have hsl : Char.toLower '/' = '/' := by decide
  rw [hsl]

theorem prefix_slash_split : ∀ {a kw b : Str}, '/' ∉ kw →
    kw <+: a ++ '/' :: b → kw <+: a := by
  intro a
  induction a with
  | nil =>
    intro kw b hs h
    cases kw with
    | nil => exact List.nil_prefix
    | cons c kw2 =>
      rw [List.nil_append] at h
      obtain ⟨hc, _⟩ := List.cons_prefix_cons.mp h
      cases hc
      exact absurd (List.mem_cons_self _ _) hs
  | cons x a2 ih =>
    intro kw b hs h
    cases kw with
    | nil => exact List.nil_prefix
    | cons c kw2 =>
      rw [List.cons_append] at h
      obtain ⟨hc, htail⟩ := List.cons_prefix_cons.mp h
      have hs2 : '/' ∉ kw2 := fun hm => hs (List.mem_cons_of_mem c hm)
      exact List.cons_prefix_cons.mpr ⟨hc, ih hs2 htail⟩

theorem infix_slash_split : ∀ {a kw b : Str}, '/' ∉ kw →
    kw <:+: a ++ '/' :: b → kw <:+: a ∨ kw <:+: b := by
  intro a
  induction a with
  | nil =>
    intro kw b hs h
    rw [List.nil_append] at h
    rcases List.infix_cons_iff.mp h with hp | hi
    · cases kw with
      | nil => exact Or.inl List.nil_infix
      | cons c kw2 =>
        obtain ⟨hc, _⟩ := List.cons_prefix_cons.mp hp
        cases hc
        exact absurd (List.mem_cons_self _ _) hs
    · exact Or.inr hi
  | cons x a2 ih =>
    intro kw b hs h
    rw [List.cons_append] at h
    rcases List.infix_cons_iff.mp h with hp | hi
    · exact Or.inl (prefix_slash_split hs hp).isInfix
    · rcases ih hs hi with h1 | h2
      · exact Or.inl (List.infix_cons_iff.mpr (Or.inr h1))
      · exact Or.inr h2

/-- Catalog condition: no keyword contains a slash. -/
def kwOk (s : ProviderSpec) : Bool :=
  s.keywords.all (fun kw => kw.all (fun ch => !(ch = '/')))

/-- Catalog condition: none of `b`'s keywords occurs in `s`'s lowercased
backend prefix. -/
def noKwInPref (b s : ProviderSpec) : Bool :=
  b.keywords.all (fun kw => !(isInfixOfS kw (toLowerS s.litellm_pref)))

/-- Catalog condition, ordered: each spec's keywords avoid the backend
prefixes of all later specs. -/
def orderedOk : List ProviderSpec → Bool
  | [] => true
  | s :: rest => rest.all (noKwInPref s) && orderedOk rest

/-- Catalog condition: a spec with a backend prefix lists that prefix (with
its slash) among its skip entries. -/
def selfSkip (s : ProviderSpec) : Bool :=
  s.litellm_pref.isEmpty ||
    s.skip_prefs.any (fun sk => sk.isPrefixOf (s.litellm_pref ++ ['/']))

theorem kwOk_no_slash {c : ProviderSpec} {kw : Str} (h : kwOk c = true)
    (hkw : kw ∈ c.keywords) : '/' ∉ kw := by
  intro hmem
  have h2 := List.all_eq_true.mp h kw hkw
  have h3 := List.all_eq_true.mp h2 '/' hmem
  simp at h3

theorem vendorMatches_false_all {m : Str} {c : ProviderSpec}
    (hg : c.is_gateway = false) (hl : c.is_local = false)
    (hm : vendorMatches m c = false) :
    ∀ kw ∈ c.keywords, isInfixOfS kw (toLowerS m) = false := by
  intro kw hkw
  unfold vendorMatches at hm
  rw [hg, hl] at hm
  simp only [Bool.not_false, Bool.true_and] at hm
  exact Bool.eq_false_iff.mpr
    (fun htrue => by rw [List.any_eq_false] at hm; exact hm kw hkw htrue)

theorem vendorMatches_extend_neg {m : Str} {S c : ProviderSpec}
    (hkwc : kwOk c = true) (hno : noKwInPref c S = true)
    (hm : vendorMatches m c = false) :
    vendorMatches (S.litellm_pref ++ '/' :: m) c = false := by
  cases hg : c.is_gateway with
  | true => simp [vendorMatches, hg]
  | false =>
    cases hl : c.is_local with
    | true => simp [vendorMatches, hl]
    | false =>
      have hall := vendorMatches_false_all hg hl hm
      unfold vendorMatches
      rw [hg, hl]
      simp only [Bool.not_false, Bool.true_and]
      rw [List.any_eq_false]
      intro kw hkw htrue
      rw [toLowerS_append_slash, isInfixOfS_iff] at htrue
      have hslash : '/' ∉ kw := kwOk_no_slash hkwc hkw
      rcases infix_slash_split hslash htrue with hpref | hmid
      · have h5 := List.all_eq_true.mp hno kw hkw
        simp only [] at h5
        rw [isInfixOfS_iff.mpr hpref] at h5
        simp at h5
      · have h6 := hall kw hkw
        rw [isInfixOfS_iff.mpr hmid] at h6
        simp at h6

theorem vendorMatches_extend_pos {m x : Str} {S : ProviderSpec}
    (hm : vendorMatches m S = true) : vendorMatches (x ++ '/' :: m) S = true := by
  unfold vendorMatches at hm ⊢
  simp only [Bool.and_eq_true_iff] at hm
  obtain ⟨⟨hg, hl⟩, hany⟩ := hm
  simp only [Bool.and_eq_true_iff]
  refine ⟨⟨hg, hl⟩, ?_⟩
  rw [List.any_eq_true] at hany ⊢
  obtain ⟨kw, hkw, hin⟩ := hany
  refine ⟨kw, hkw, ?_⟩
  rw [isInfixOfS_iff] at hin ⊢
  rw [toLowerS_append_slash]
  exact hin.trans (List.suffix_cons '/' (toLowerS m)).isInfix |>.trans
    (List.suffix_append (toLowerS x) ('/' :: toLowerS m)).isInfix

theorem find_stable : ∀ (L : List ProviderSpec) (m : Str) (S : ProviderSpec),
    L.all kwOk = true → orderedOk L = true →
    L.find? (vendorMatches m) = some S →
    L.find? (vendorMatches (S.litellm_pref ++ '/' :: m)) = some S := by
  intro L
  induction L with
  | nil => intro m S _ _ h; cases h
  | cons c rest ih =>
    intro m S hkw hord h
    have hkwc : kwOk c = true := List.all_eq_true.mp hkw c (List.mem_cons_self c rest)
    have hkwrest : rest.all kwOk = true :=
      List.all_eq_true.mpr (fun x hx => List.all_eq_true.mp hkw x (List.mem_cons_of_mem c hx))
    have hord2 : (rest.all (noKwInPref c) && orderedOk rest) = true := hord
    obtain ⟨hnoall, hordrest⟩ := Bool.and_eq_true_iff.mp hord2
    by_cases hc : vendorMatches m c = true
    · rw [List.find?_cons_of_pos rest hc] at h
      cases h
      exact List.find?_cons_of_pos rest (vendorMatches_extend_pos hc)
    · have hc2 : vendorMatches m c = false := Bool.eq_false_iff.mpr hc
      rw [List.find?_cons_of_neg rest hc] at h
      have hSmem : S ∈ rest := List.mem_of_find?_eq_some h
      have hno : noKwInPref c S = true := List.all_eq_true.mp hnoall S hSmem
      have hnew : vendorMatches (S.litellm_pref ++ '/' :: m) c = false :=
        vendorMatches_extend_neg hkwc hno hc2
      rw [List.find?_cons_of_neg rest (by simp [hnew])]
      exact ih m S hkwrest hordrest h

theorem skip_hits {S : ProviderSpec} (hss : selfSkip S = true)
    (hp : S.litellm_pref ≠ []) (m : Str) :
    S.skip_prefs.any (fun sk => sk.isPrefixOf (S.litellm_pref ++ '/' :: m)) = true := by
  unfold selfSkip at hss
  rcases Bool.or_eq_true_iff.mp hss with he | hany
  · exact absurd (List.isEmpty_iff.mp he) hp
  · rw [List.any_eq_true] at hany ⊢
    obtain ⟨sk, hsk, hpre⟩ := hany
    refine ⟨sk, hsk, ?_⟩
    have : S.litellm_pref ++ '/' :: m = (S.litellm_pref ++ ['/']) ++ m := by simp
    rw [this]
    exact isPrefixOf_extend hpre

theorem resolve_model_none_idem (m : Str) :
    resolve_model none (resolve_model none m) = resolve_model none m := by
  cases hf : find_by_model m with
  | none =>
    have hr : resolve_model none m = m := by simp [resolve_model, hf]
    rw [hr]
    exact hr
  | some S =>
    by_cases hc : (!S.litellm_pref.isEmpty &&
        !(S.skip_prefs.any (fun pre => pre.isPrefixOf m))) = true
    · have hr : resolve_model none m = S.litellm_pref ++ '/' :: m := by
        simp [resolve_model, hf, hc]
      rw [hr]
      have hpne : S.litellm_pref ≠ [] := by
        obtain ⟨h1, _⟩ := Bool.and_eq_true_iff.mp hc
        simpa [List.isEmpty_iff] using h1
      have hf2 : find_by_model (S.litellm_pref ++ '/' :: m) = some S :=
        find_stable PROVIDERS m S (by decide) (by decide) hf
      have hSmatch : vendorMatches m S = true := List.find?_some hf
      have hflags : S.is_gateway = false ∧ S.is_local = false := by
        unfold vendorMatches at hSmatch
        rcases Bool.and_eq_true_iff.mp hSmatch with ⟨h12, _⟩
        rcases Bool.and_eq_true_iff.mp h12 with ⟨h1, h2⟩
        exact ⟨by simpa using h1, by simpa using h2⟩
      have hskipS : selfSkip S = true :=
        (by decide :
          ∀ s ∈ PROVIDERS, s.is_gateway = false → s.is_local = false →
            selfSkip s = true) S
          (List.mem_of_find?_eq_some hf) hflags.1 hflags.2
      have hany := skip_hits hskipS hpne m
      simp [resolve_model, hf2, hany]
    · have hr : resolve_model none m = m := by simp [resolve_model, hf, hc]
      rw [hr]
      exact hr

theorem resolve_model_gateway_idem (gw : ProviderSpec) (m : Str) :
    resolve_model (some gw) (resolve_model (some gw) m) =
      resolve_model (some gw) m := by
  cases hstrip : gw.strip_model_pref with
  | false =>
    by_cases hc : (gw.litellm_pref.isEmpty ||
        (gw.litellm_pref ++ ['/']).isPrefixOf m) = true
    · have hr : resolve_model (some gw) m = m := by
        simp [resolve_model, hstrip, hc]
      rw [hr]
      exact hr
    · have hr : resolve_model (some gw) m = gw.litellm_pref ++ '/' :: m := by
        simp [resolve_model, hstrip, hc]
      rw [hr]
      have hpre : (gw.litellm_pref ++ ['/']).isPrefixOf
          (gw.litellm_pref ++ '/' :: m) = true := by
        have : gw.litellm_pref ++ '/' :: m = (gw.litellm_pref ++ ['/']) ++ m := by
          simp
        rw [this]
        exact isPrefixOf_append_right _ _
      simp [resolve_model, hstrip, hpre]
  | true =>
    by_cases hc : (gw.litellm_pref.isEmpty ||
        (gw.litellm_pref ++ ['/']).isPrefixOf (afterLastSlash m)) = true
    · have hr : resolve_model (some gw) m = afterLastSlash m := by
        simp [resolve_model, hstrip, hc]
      rw [hr]
      have hn : afterLastSlash (afterLastSlash m) = afterLastSlash m :=
        afterLastSlash_of_no_slash (afterLastSlash_no_slash m)
      simp [resolve_model, hstrip, hn, hc]
    · have hr : resolve_model (some gw) m =
          gw.litellm_pref ++ '/' :: afterLastSlash m := by
        simp [resolve_model, hstrip, hc]
      rw [hr]
      have ha : afterLastSlash (gw.litellm_pref ++ '/' :: afterLastSlash m) =
          afterLastSlash m := afterLastSlash_append (afterLastSlash_no_slash m)
      simp [resolve_model, hstrip, ha, hc]

/-- C2: model name resolution is idempotent: for every model identifier and
every gateway choice (any catalog descriptor or none — in fact any descriptor
at all), resolving an already-resolved identifier is a no-op. -/
theorem resolve_model_idem (m : Str) (g : Option ProviderSpec) :
    resolve_model g (resolve_model g m) = resolve_model g m := by
  cases g with
  | none => exact resolve_model_none_idem m
  | some gw => exact resolve_model_gateway_idem gw m

end Nanobot
